import Mathlib

/-!
Verification of the request-baskets core (`baskets.go`) against its
natural-language specification.

Go strings are modelled as lists of characters (`Str`); for the ASCII data
handled here this coincides with Go's byte strings, and for valid UTF-8 the
substring relation on bytes coincides with the one on characters.
`http.Header` is modelled as an association list from header names to value
lists, with the add/del/set operations of `net/http` (which canonicalize the
header key exactly as `textproto.CanonicalMIMEHeaderKey` does).
Functions performing I/O (`url.ParseRequestURI`, `http.Client.Do`) are
supplied as oracle parameters.  A Go `(value, error)` return pair in which
exactly one side is non-nil is modelled as `Except`.
-/

/-- Go string, as a sequence of characters. -/
abbrev Str := List Char

/-- Predicate `isPre pre s` decides whether `pre` is a prefix of `s`. -/
def isPre : Str → Str → Bool
  | [], _ => true
  | _ :: _, [] => false
  | a :: as, b :: bs => a == b && isPre as bs

/-- Predicate `isSuf suf s` decides whether `suf` is a suffix of `s`. -/
def isSuf (suf s : Str) : Bool := isPre suf.reverse s.reverse

/-- Go `strings.Contains(s, sub)`: `sub` occurs contiguously inside `s`. -/
def containsStr : Str → Str → Bool
  | [], sub => sub.isEmpty
  | s@(_ :: rest), sub => isPre sub s || containsStr rest sub

/-- Go `strings.TrimPrefix(s, pre)`: drop `pre` from the front when present. -/
def trimPre (s pre : Str) : Str := if isPre pre s then s.drop pre.length else s

/-- Go `strings.TrimSuffix(s, suf)`: drop `suf` from the end when present. -/
def trimSuf (s suf : Str) : Str :=
  if isSuf suf s then s.take (s.length - suf.length) else s

/-- ASCII lowercase letter test. -/
def isLowerCh (c : Char) : Bool := decide (97 ≤ c.toNat) && decide (c.toNat ≤ 122)

/-- ASCII uppercase letter test. -/
def isUpperCh (c : Char) : Bool := decide (65 ≤ c.toNat) && decide (c.toNat ≤ 90)

/-- ASCII uppercasing of a single character, as done byte-wise in Go. -/
def toUpperCh (c : Char) : Char := if isLowerCh c then Char.ofNat (c.toNat - 32) else c

/-- ASCII lowercasing of a single character, as done byte-wise in Go. -/
def toLowerCh (c : Char) : Char := if isUpperCh c then Char.ofNat (c.toNat + 32) else c

/-- Go `textproto.validHeaderFieldByte`: HTTP token characters. -/
def validHeaderFieldChar (c : Char) : Bool :=
  isLowerCh c || isUpperCh c || (decide (48 ≤ c.toNat) && decide (c.toNat ≤ 57)) ||
  c == '!' || c == '#' || c == '$' || c == '%' || c == '&' || c == Char.ofNat 39 ||
  c == '*' || c == '+' || c == '-' || c == '.' || c == Char.ofNat 94 || c == '_' ||
  c == Char.ofNat 96 || c == '|' || c == Char.ofNat 126

/-- Case-mangling loop of `textproto.CanonicalMIMEHeaderKey`: uppercase the
letter at the start and after each hyphen, lowercase the rest. -/
def canonLoop : Bool → Str → Str
  | _, [] => []
  | upper, c :: rest =>
    let c2 := if upper then toUpperCh c else toLowerCh c
    c2 :: canonLoop (c2 == '-') rest

/-- Go `textproto.CanonicalMIMEHeaderKey`: keys holding a character that is not a
valid header-field character are returned unchanged. -/
def canonicalKey (s : Str) : Str :=
  if s.all validHeaderFieldChar then canonLoop true s else s

/-- Model of Go `http.Header`: association list from header name to the list
of values for that name.  The `net/http` operations below keep stored keys in
canonical form, as the real map does. -/
abbrev HttpHeader := List (Str × List Str)

/-- Raw association-list lookup (first entry with the exactly-matching key);
`[]` plays the role of Go's `nil` value slice for an absent key. -/
def hdrLookup : HttpHeader → Str → List Str
  | [], _ => []
  | e :: rest, key => if e.1 = key then e.2 else hdrLookup rest key

/-- Go `http.Header.Values`: lookup under the canonicalized key. -/
def hdrGet (h : HttpHeader) (key : Str) : List Str := hdrLookup h (canonicalKey key)

/-- Append one value to the entry of an (already canonical) key, creating the
entry when absent — the map update inside `textproto.MIMEHeader.Add`. -/
def hdrAddCanon : HttpHeader → Str → Str → HttpHeader
  | [], ck, v => [(ck, [v])]
  | e :: rest, ck, v =>
    if e.1 = ck then (e.1, e.2 ++ [v]) :: rest else e :: hdrAddCanon rest ck v

/-- Go `http.Header.Add`. -/
def hdrAdd (h : HttpHeader) (key v : Str) : HttpHeader := hdrAddCanon h (canonicalKey key) v

/-- Delete every entry of an (already canonical) key — the map delete inside
`textproto.MIMEHeader.Del`. -/
def hdrDelCanon : HttpHeader → Str → HttpHeader
  | [], _ => []
  | e :: rest, ck => if e.1 = ck then hdrDelCanon rest ck else e :: hdrDelCanon rest ck

/-- Go `http.Header.Del`. -/
def hdrDel (h : HttpHeader) (key : Str) : HttpHeader := hdrDelCanon h (canonicalKey key)

/-- Replace the entry of an (already canonical) key by a single value — the
map assignment inside `textproto.MIMEHeader.Set`. -/
def hdrSetCanon : HttpHeader → Str → Str → HttpHeader
  | [], ck, v => [(ck, [v])]
  | e :: rest, ck, v =>
    if e.1 = ck then (ck, [v]) :: rest else e :: hdrSetCanon rest ck v

/-- Go `http.Header.Set`. -/
def hdrSet (h : HttpHeader) (key v : Str) : HttpHeader := hdrSetCanon h (canonicalKey key) v

/-- Structure `RequestData` of `baskets.go`: the captured request. -/
structure RequestData where
  Date : Int
  Header : HttpHeader
  ContentLength : Int
  Body : Str
  Method : Str
  Path : Str
  Query : Str
deriving DecidableEq

/-- Method `RequestData.Matches` of `baskets.go`: substring search over the scope
selected by `inField` (the parameter is named `in` in the source). -/
def RequestData.Matches (req : RequestData) (query : Str) (inField : Str) : Bool :=
  let scopes : Bool × Bool × Bool :=
    if inField = "body".data then (true, false, false)
    else if inField = "query".data then (false, true, false)
    else if inField = "headers".data then (false, false, true)
    else (true, true, true)
  (scopes.1 && containsStr req.Body query) ||
  (scopes.2.1 && containsStr req.Query query) ||
  (scopes.2.2 && req.Header.any (fun e => e.2.any (fun val => containsStr val query)))

-- Relating the executable string predicates to their mathematical meaning.

theorem isPre_iff (pre s : Str) : isPre pre s = true ↔ pre <+: s := by
  induction pre generalizing s with
  | nil => simp [isPre]
  | cons a as ih =>
    cases s with
    | nil => simp [isPre]
    | cons b bs =>
      simp [isPre, ih, List.cons_prefix_cons]

theorem containsStr_iff (s sub : Str) : containsStr s sub = true ↔ sub <:+: s := by
  induction s with
  | nil =>
    simp only [containsStr, List.isEmpty_iff]
    constructor
    · rintro rfl; exact ⟨[], [], rfl⟩
    · rintro ⟨t, u, h⟩
      cases t <;> cases sub <;> simp_all
  | cons c rest ih =>
    simp only [containsStr, Bool.or_eq_true, isPre_iff, ih]
    constructor
    · rintro (⟨t, ht⟩ | ⟨t, u, h⟩)
      · exact ⟨[], t, by simpa using ht⟩
      · exact ⟨c :: t, u, by simp [h]⟩
    · rintro ⟨t, u, h⟩
      cases t with
      | nil => exact Or.inl ⟨u, by simpa using h⟩
      | cons x xs =>
        right
        refine ⟨xs, u, ?_⟩
        have := congrArg List.tail h
        simpa using this

theorem containsStr_nil (s : Str) : containsStr s [] = true := by
  cases s <;> simp [containsStr, isPre]

/-- C2: `Matches(query, scope)` is true iff `query` occurs as a case-sensitive
substring in at least one field selected by the scope: the body alone for
`"body"`, the raw query alone for `"query"`, at least one single header value
for `"headers"`, and body OR raw query OR any single header value for every
other scope, the empty scope included. -/
theorem matches_scope_correct (req : RequestData) (q s : Str) :
    req.Matches q s = true ↔
      (if s = "body".data then q <:+: req.Body
       else if s = "query".data then q <:+: req.Query
       else if s = "headers".data then ∃ e ∈ req.Header, ∃ v ∈ e.2, q <:+: v
       else (q <:+: req.Body ∨ q <:+: req.Query ∨
              ∃ e ∈ req.Header, ∃ v ∈ e.2, q <:+: v)) := by
  unfold RequestData.Matches
  split_ifs <;> simp_all [containsStr_iff, List.any_eq_true, or_assoc]

/-- C9: matching the empty query succeeds for the scopes `"body"` and
`"query"` and for every scope other than `"headers"`; for `"headers"` it
succeeds iff the record has at least one header value, and in particular
fails on a record with no headers. -/
theorem matches_empty_query (req : RequestData) (s : Str) :
    (s ≠ "headers".data → req.Matches [] s = true)
    ∧ (req.Matches [] "headers".data = true ↔ ∃ e ∈ req.Header, ∃ v, v ∈ e.2)
    ∧ (req.Header = [] → req.Matches [] "headers".data = false) := by
  refine ⟨?_, ?_, ?_⟩
  · intro hs
    unfold RequestData.Matches
    split_ifs <;> simp_all [containsStr_nil]
  · unfold RequestData.Matches
    simp [containsStr_nil, List.any_eq_true]
  · intro h
    unfold RequestData.Matches
    simp [h]

/-- Structure `BasketConfig` of `baskets.go`. -/
structure BasketConfig where
  ForwardURL : Str
  ProxyResponse : Bool
  InsecureTLS : Bool
  ExpandPath : Bool
  Capacity : Int
deriving DecidableEq

/-- The part of `net/url.URL` exercised by `Forward`: scheme, host, path and
raw query (no user info, no fragment, no escaping). -/
structure GoURL where
  Scheme : Str
  Host : Str
  Path : Str
  RawQuery : Str
deriving DecidableEq

/-- Go `net/url.URL.String` restricted to scheme/host/path/query URLs. -/
def urlString (u : GoURL) : Str :=
  u.Scheme ++ "://".data ++ u.Host ++ u.Path ++
    (if u.RawQuery = [] then [] else '?' :: u.RawQuery)

/-- Function `expandURL` of `baskets.go`. -/
def expandURL (url original basket : Str) : Str :=
  trimSuf url "/".data ++ trimPre original ('/' :: basket)

/-- The URL rewriting steps of `Forward` (path expansion, then query merge),
applied to the parsed forward URL. -/
def forwardTarget (forwardURL : GoURL) (config : BasketConfig) (basket : Str)
    (req : RequestData) : GoURL :=
  let u1 :=
    if config.ExpandPath && decide (basket.length + 1 < req.Path.length)
    then { forwardURL with Path := expandURL forwardURL.Path req.Path basket }
    else forwardURL
  if 0 < req.Query.length then
    if 0 < u1.RawQuery.length then { u1 with RawQuery := u1.RawQuery ++ '&' :: req.Query }
    else { u1 with RawQuery := req.Query }
  else u1

/-- The outbound request that `Forward` builds via `http.NewRequest` (method,
serialized target URL, body; headers start empty).  `http.NewRequest` itself
cannot fail here beyond what its inputs already exclude (its only failure
modes, an invalid method token or an unparsable URL string, concern `net/http`
internals outside this repository), so it is modelled as total. -/
structure ForwardRequest where
  Method : Str
  URL : Str
  Header : HttpHeader
  Body : Str
deriving DecidableEq

/-- The header-copy loop of `Forward`: `Add` every captured value, in order,
into the (initially empty) outbound header map. -/
def copyHeaders (src : HttpHeader) (dst : HttpHeader) : HttpHeader :=
  src.foldl (fun acc e => e.2.foldl (fun a v => hdrAdd a e.1 v) acc) dst

/-- Function `forwardHeadersCleanup` of `baskets.go`: strip the hop-by-hop headers
`Connection`, `Upgrade` and `TE` from the outbound request. -/
def forwardHeadersCleanup (fr : ForwardRequest) : ForwardRequest :=
  { fr with Header := hdrDel (hdrDel (hdrDel fr.Header "Connection".data) "Upgrade".data) "TE".data }

/-- Construction of the outbound request in `Forward`: `http.NewRequest`,
header copy, `forwardHeadersCleanup`, then `Set(X-Do-Not-Forward, "1")`. -/
def buildForwardRequest (forwardURL : GoURL) (config : BasketConfig) (basket : Str)
    (req : RequestData) : ForwardRequest :=
  let fr : ForwardRequest :=
    { Method := req.Method, URL := urlString (forwardTarget forwardURL config basket req)
      Header := [], Body := req.Body }
  let fr := { fr with Header := copyHeaders req.Header fr.Header }
  let fr := forwardHeadersCleanup fr
  { fr with Header := hdrSet fr.Header "X-Do-Not-Forward".data "1".data }

/-- The error values `Forward` can return. -/
inductive GoError where
  | invalidForwardURL : Str → GoError
deriving DecidableEq

/-- Go `http.Response`, restricted to the fields the core reads or builds. -/
structure HttpResponse where
  StatusCode : Int
  Header : HttpHeader
  Body : Str
deriving DecidableEq

/-- The synthesized `502 Bad Gateway` response of `Forward`: empty header map
with `Content-Type: text/plain` set, and the formatted error text as body. -/
def badGatewayResponse (errMsg : Str) : HttpResponse :=
  { StatusCode := 502
    Header := hdrSet [] "Content-Type".data "text/plain".data
    Body := "Failed to forward request: ".data ++ errMsg }

/-- Method `RequestData.Forward` of `baskets.go`.  Here `parseRequestURI` stands for
`url.ParseRequestURI` and `client` for `http.Client.Do`, both supplied by the
environment.  The result pairs the Go `(response, error)` outcome with the
final state of the receiver (the method takes `req` by pointer, so the
embedding threads the receiver explicitly). -/
def RequestData.Forward (req : RequestData)
    (client : ForwardRequest → Except Str HttpResponse)
    (parseRequestURI : Str → Option GoURL)
    (config : BasketConfig) (basket : Str) :
    Except GoError HttpResponse × RequestData :=
  match parseRequestURI config.ForwardURL with
  | none => (Except.error (GoError.invalidForwardURL config.ForwardURL), req)
  | some forwardURL =>
    match client (buildForwardRequest forwardURL config basket req) with
    | Except.error e => (Except.ok (badGatewayResponse e), req)
    | Except.ok response => (Except.ok response, req)

-- Concrete inputs for the path-expansion scenario (claim C4).
def c4url : GoURL := { Scheme := "http".data, Host := "up".data, Path := "/x/".data, RawQuery := [] }

def c4cfg : BasketConfig :=
  { ForwardURL := "http://up/x/".data, ProxyResponse := false, InsecureTLS := false
    ExpandPath := true, Capacity := 200 }

def c4req : RequestData :=
  { Date := 0, Header := [], ContentLength := 0, Body := []
    Method := "GET".data, Path := "/b1/y/z".data, Query := "k=1".data }

/-- C4: with `expand_path` true and a captured path strictly longer than
`"/" + basketName`, the forwarded URL path is the forward URL path with one
trailing slash trimmed, concatenated with the captured path with the leading
`"/" + basketName` trimmed; otherwise (condition false or `expand_path`
false) the forward URL path is kept.  In particular, forwarding
`GET /b1/y/z?k=1` on basket `b1` to `http://up/x/` targets
`http://up/x/y/z?k=1`. -/
theorem forward_expand_path (u : GoURL) (config : BasketConfig) (basket : Str)
    (req : RequestData) :
    ((forwardTarget u config basket req).Path =
      if config.ExpandPath = true ∧ basket.length + 1 < req.Path.length
      then trimSuf u.Path "/".data ++ trimPre req.Path ('/' :: basket)
      else u.Path)
    ∧ (buildForwardRequest c4url c4cfg "b1".data c4req).URL = "http://up/x/y/z?k=1".data := by
  constructor
  · simp only [forwardTarget, expandURL, apply_ite GoURL.Path, ite_self]
    by_cases he : config.ExpandPath = true <;>
      by_cases hl : basket.length + 1 < req.Path.length <;>
        simp [he, hl]
  · decide

/-- C5: when `config.forward_url` does not parse as a request URI, `Forward`
returns a non-nil error and no response of any kind. -/
theorem forward_parse_failure_error (req : RequestData)
    (client : ForwardRequest → Except Str HttpResponse)
    (parse : Str → Option GoURL) (config : BasketConfig) (basket : Str)
    (hparse : parse config.ForwardURL = none) :
    (req.Forward client parse config basket).1 =
      Except.error (GoError.invalidForwardURL config.ForwardURL) := by
  unfold RequestData.Forward
  rw [hparse]

def c5req : RequestData :=
  { Date := 0, Header := [], ContentLength := 0, Body := []
    Method := "GET".data, Path := "/b1".data, Query := [] }

def c5cfg : BasketConfig :=
  { ForwardURL := "::not a url::".data, ProxyResponse := false, InsecureTLS := false
    ExpandPath := false, Capacity := 200 }

theorem forward_parse_failure_error_witness :
    ((fun _ : Str => (none : Option GoURL)) c5cfg.ForwardURL = none)
    ∧ (c5req.Forward (fun _ => Except.error []) (fun _ => none) c5cfg "b1".data).1 =
        Except.error (GoError.invalidForwardURL c5cfg.ForwardURL) :=
  ⟨rfl, forward_parse_failure_error c5req (fun _ => Except.error []) (fun _ => none)
      c5cfg "b1".data rfl⟩

/-- C6: query merging of `Forward` — with a non-empty captured query and a
non-empty forward-URL query the two are joined with `&` (forward URL's first);
with only the captured query non-empty it is used as the query; with an empty
captured query the forward URL's query stays untouched. -/
theorem forward_query_merge (u : GoURL) (config : BasketConfig) (basket : Str)
    (req : RequestData) :
    (forwardTarget u config basket req).RawQuery =
      if req.Query = [] then u.RawQuery
      else if u.RawQuery = [] then req.Query
      else u.RawQuery ++ '&' :: req.Query := by
  unfold forwardTarget
  rcases hq : req.Query with _ | ⟨c, cs⟩ <;>
    rcases hu : u.RawQuery with _ | ⟨d, ds⟩ <;>
      split_ifs <;> simp_all [List.length_pos]

/-- C10: `Forward` never mutates its receiver: whatever the parse result and
the client outcome, the receiver state after the call equals the original
captured request; the header deletions and the `X-Do-Not-Forward` assignment
happen on the freshly built outbound request only. -/
theorem forward_receiver_unchanged (req : RequestData)
    (client : ForwardRequest → Except Str HttpResponse)
    (parse : Str → Option GoURL) (config : BasketConfig) (basket : Str) :
    (req.Forward client parse config basket).2 = req := by
  unfold RequestData.Forward
  cases hp : parse config.ForwardURL with
  | none => rfl
  | some u =>
    show (match client (buildForwardRequest u config basket req) with
      | Except.error e => (Except.ok (badGatewayResponse e), req)
      | Except.ok response => (Except.ok response, req)).2 = req
    cases client (buildForwardRequest u config basket req) <;> rfl

theorem badGateway_contentType (e : Str) :
    hdrGet (badGatewayResponse e).Header "Content-Type".data = ["text/plain".data] := by
  show hdrGet (hdrSet [] "Content-Type".data "text/plain".data) "Content-Type".data
      = ["text/plain".data]
  decide

/-- C1 (amended): when the forward URL parses but the HTTP client's execution
of the forwarded request fails, `Forward` returns a nil error together with a
synthesized response whose status is 502 Bad Gateway, whose Content-Type
header is text/plain, and whose body is plain text naming the underlying
transport error (the basket name goes to the server log only, not into the
body); the transport error is never propagated to the caller. -/
theorem forward_transport_failure_502 (req : RequestData)
    (client : ForwardRequest → Except Str HttpResponse)
    (parse : Str → Option GoURL) (config : BasketConfig) (basket : Str)
    (u : GoURL) (e : Str)
    (hparse : parse config.ForwardURL = some u)
    (hclient : client (buildForwardRequest u config basket req) = Except.error e) :
    (req.Forward client parse config basket).1 = Except.ok (badGatewayResponse e)
    ∧ (badGatewayResponse e).StatusCode = 502
    ∧ hdrGet (badGatewayResponse e).Header "Content-Type".data = ["text/plain".data]
    ∧ (badGatewayResponse e).Body = "Failed to forward request: ".data ++ e := by
  refine ⟨?_, rfl, badGateway_contentType e, rfl⟩
  unfold RequestData.Forward
  rw [hparse]
  show (match client (buildForwardRequest u config basket req) with
    | Except.error e => (Except.ok (badGatewayResponse e), req)
    | Except.ok response => (Except.ok response, req)).1 = _
  rw [hclient]

-- Concrete inputs for the transport-failure scenario (claim C1).
def c1url : GoURL :=
  { Scheme := "http".data, Host := "127.0.0.1:1".data, Path := [], RawQuery := [] }

def c1cfg : BasketConfig :=
  { ForwardURL := "http://127.0.0.1:1".data, ProxyResponse := false, InsecureTLS := false
    ExpandPath := false, Capacity := 200 }

def c1req : RequestData :=
  { Date := 0, Header := [], ContentLength := 2, Body := "hi".data
    Method := "POST".data, Path := "/b1".data, Query := [] }

theorem forward_transport_failure_502_witness :
    ((fun _ : Str => some c1url) c1cfg.ForwardURL = some c1url)
    ∧ ((fun _ : ForwardRequest =>
          (Except.error "connection refused".data : Except Str HttpResponse))
         (buildForwardRequest c1url c1cfg "b1".data c1req) =
           Except.error "connection refused".data)
    ∧ (c1req.Forward (fun _ => Except.error "connection refused".data)
         (fun _ => some c1url) c1cfg "b1".data).1
        = Except.ok (badGatewayResponse "connection refused".data) :=
  ⟨rfl, rfl,
    (forward_transport_failure_502 c1req (fun _ => Except.error "connection refused".data)
      (fun _ => some c1url) c1cfg "b1".data c1url "connection refused".data rfl rfl).1⟩

/-- C1 counterexample: on a concrete transport failure, the synthesized 502
response's body does not contain the basket name (here `b1`), refuting the
claim that the body names the basket. -/
theorem forward_502_body_lacks_basket :
    (c1req.Forward (fun _ => Except.error "connection refused".data)
        (fun _ => some c1url) c1cfg "b1".data).1
      = Except.ok (badGatewayResponse "connection refused".data)
    ∧ containsStr (badGatewayResponse "connection refused".data).Body "b1".data = false :=
  ⟨rfl, by decide⟩

def c9req : RequestData :=
  { Date := 0, Header := [], ContentLength := 0, Body := "alpha".data
    Method := "GET".data, Path := "/b1".data, Query := [] }

theorem matches_empty_query_witness :
    c9req.Matches [] "body".data = true ∧ c9req.Matches [] "headers".data = false :=
  ⟨(matches_empty_query c9req "body".data).1 (by decide),
    (matches_empty_query c9req "headers".data).2.2 rfl⟩

-- Pointwise behaviour of the header-map operations.

theorem hdrLookup_addCanon (h : HttpHeader) (ck v q : Str) :
    hdrLookup (hdrAddCanon h ck v) q =
      if q = ck then hdrLookup h q ++ [v] else hdrLookup h q := by
  induction h with
  | nil =>
    by_cases hq : q = ck
    · subst hq; simp [hdrAddCanon, hdrLookup]
    · have hcq : ¬ck = q := fun h => hq h.symm
      simp [hdrAddCanon, hdrLookup, hq, hcq]
  | cons e rest ih =>
    by_cases hq : q = ck
    · subst hq
      by_cases he : e.1 = q <;> simp [hdrAddCanon, hdrLookup, he, ih]
    · by_cases he : e.1 = ck
      · have hne : ¬ e.1 = q := fun h => hq (h.symm.trans he)
        have hcq : ¬ck = q := fun h => hq h.symm
        simp [hdrAddCanon, hdrLookup, he, hq, hne, hcq, ih]
      · by_cases heq : e.1 = q <;> simp [hdrAddCanon, hdrLookup, he, hq, heq, ih]

theorem hdrLookup_delCanon (h : HttpHeader) (ck q : Str) :
    hdrLookup (hdrDelCanon h ck) q = if q = ck then [] else hdrLookup h q := by
  induction h with
  | nil =>
    by_cases hq : q = ck <;> simp [hdrDelCanon, hdrLookup, hq]
  | cons e rest ih =>
    by_cases hq : q = ck
    · subst hq
      by_cases he : e.1 = q <;> simp [hdrDelCanon, hdrLookup, he, ih]
    · by_cases he : e.1 = ck
      · have hne : ¬ e.1 = q := fun h => hq (h.symm.trans he)
        have hcq : ¬ck = q := fun h => hq h.symm
        simp [hdrDelCanon, hdrLookup, he, hq, hne, hcq, ih]
      · by_cases heq : e.1 = q <;> simp [hdrDelCanon, hdrLookup, he, hq, heq, ih]

theorem hdrLookup_setCanon (h : HttpHeader) (ck v q : Str) :
    hdrLookup (hdrSetCanon h ck v) q = if q = ck then [v] else hdrLookup h q := by
  induction h with
  | nil =>
    by_cases hq : q = ck
    · subst hq; simp [hdrSetCanon, hdrLookup]
    · have hcq : ¬ck = q := fun h => hq h.symm
      simp [hdrSetCanon, hdrLookup, hq, hcq]
  | cons e rest ih =>
    by_cases hq : q = ck
    · subst hq
      by_cases he : e.1 = q <;> simp [hdrSetCanon, hdrLookup, he, ih]
    · by_cases he : e.1 = ck
      · have hne : ¬ e.1 = q := fun h => hq (h.symm.trans he)
        have hcq : ¬ck = q := fun h => hq h.symm
        simp [hdrSetCanon, hdrLookup, he, hq, hne, hcq, ih]
      · by_cases heq : e.1 = q <;> simp [hdrSetCanon, hdrLookup, he, hq, heq, ih]

/-- All values that the copy loop contributes for target key `q`: the values
of the source entries whose canonicalized name is `q`, in source order. -/
def valsFor : HttpHeader → Str → List Str
  | [], _ => []
  | e :: rest, q => (if q = canonicalKey e.1 then e.2 else []) ++ valsFor rest q

theorem hdrLookup_addAll (vs : List Str) (acc : HttpHeader) (k q : Str) :
    hdrLookup (vs.foldl (fun a v => hdrAdd a k v) acc) q =
      hdrLookup acc q ++ (if q = canonicalKey k then vs else []) := by
  induction vs generalizing acc with
  | nil => simp
  | cons v vs ih =>
    rw [List.foldl_cons, ih, hdrAdd, hdrLookup_addCanon]
    by_cases hq : q = canonicalKey k <;> simp [hq]

theorem hdrLookup_copyHeaders (src : HttpHeader) (dst : HttpHeader) (q : Str) :
    hdrLookup (copyHeaders src dst) q = hdrLookup dst q ++ valsFor src q := by
  induction src generalizing dst with
  | nil => simp [copyHeaders, valsFor]
  | cons e rest ih =>
    have hstep : copyHeaders (e :: rest) dst =
        copyHeaders rest (e.2.foldl (fun a v => hdrAdd a e.1 v) dst) := rfl
    rw [hstep, ih, hdrLookup_addAll, valsFor, List.append_assoc]

theorem valsFor_nil_of (src : HttpHeader) (q : Str)
    (h : ∀ e ∈ src, ¬ q = canonicalKey e.1) : valsFor src q = [] := by
  induction src with
  | nil => rfl
  | cons e rest ih =>
    have he := h e (by simp)
    simp [valsFor, he, ih fun x hx => h x (by simp [hx])]

theorem valsFor_eq_lookup (src : HttpHeader) (q : Str)
    (hcanon : ∀ e ∈ src, canonicalKey e.1 = e.1)
    (hnodup : (src.map Prod.fst).Nodup) :
    valsFor src q = hdrLookup src q := by
  induction src with
  | nil => rfl
  | cons e rest ih =>
    have hce : canonicalKey e.1 = e.1 := hcanon e (by simp)
    have hcr : ∀ x ∈ rest, canonicalKey x.1 = x.1 := fun x hx => hcanon x (by simp [hx])
    have hmem : e.1 ∉ rest.map Prod.fst := by
      have := hnodup
      rw [List.map_cons, List.nodup_cons] at this
      exact this.1
    have hnr : (rest.map Prod.fst).Nodup := by
      have := hnodup
      rw [List.map_cons, List.nodup_cons] at this
      exact this.2
    by_cases hq : q = e.1
    · have hrest : valsFor rest q = [] := by
        refine valsFor_nil_of rest q fun x hx hqx => hmem ?_
        rw [hcr x hx] at hqx
        rw [List.mem_map]
        exact ⟨x, hx, hqx.symm.trans hq⟩
      simp only [valsFor, hdrLookup, hce, hrest, if_pos hq, if_pos hq.symm,
        List.append_nil]
    · have heq : ¬ e.1 = q := fun h => hq h.symm
      simp [valsFor, hdrLookup, hce, hq, heq, ih hcr hnr]

/-- C7: the outbound request built by `Forward` carries exactly the captured
headers with every value preserved, except that the `Connection`, `Upgrade`
and `TE` headers are removed (in the canonical spelling used by Go's header
maps, `TE` is stored as `Te`) and the `X-Do-Not-Forward` header is set to the
single value `1`, replacing any captured value of that header; the outbound
method and body equal the captured method and body.  Stated over captured
header maps with canonical, duplicate-free keys — the form `ToRequestData`
produces when copying the Go server's parsed headers. -/
theorem forward_headers_exact (u : GoURL) (config : BasketConfig) (basket : Str)
    (req : RequestData)
    (hcanon : ∀ e ∈ req.Header, canonicalKey e.1 = e.1)
    (hnodup : (req.Header.map Prod.fst).Nodup) :
    (buildForwardRequest u config basket req).Method = req.Method
    ∧ (buildForwardRequest u config basket req).Body = req.Body
    ∧ ∀ k, canonicalKey k = k →
        hdrGet (buildForwardRequest u config basket req).Header k =
          if k = "X-Do-Not-Forward".data then ["1".data]
          else if k = "Connection".data ∨ k = "Upgrade".data ∨ k = "Te".data then []
          else hdrGet req.Header k := by
  refine ⟨rfl, rfl, ?_⟩
  intro k hk
  have hbuild : (buildForwardRequest u config basket req).Header =
      hdrSet (hdrDel (hdrDel (hdrDel (copyHeaders req.Header []) "Connection".data)
        "Upgrade".data) "TE".data) "X-Do-Not-Forward".data "1".data := rfl
  rw [hbuild]
  unfold hdrSet hdrDel hdrGet
  rw [hk]
  have hX : canonicalKey "X-Do-Not-Forward".data = "X-Do-Not-Forward".data := by decide
  have hC : canonicalKey "Connection".data = "Connection".data := by decide
  have hU : canonicalKey "Upgrade".data = "Upgrade".data := by decide
  have hT : canonicalKey "TE".data = "Te".data := by decide
  rw [hX, hC, hU, hT, hdrLookup_setCanon, hdrLookup_delCanon, hdrLookup_delCanon,
    hdrLookup_delCanon, hdrLookup_copyHeaders,
    valsFor_eq_lookup req.Header k hcanon hnodup]
  by_cases h1 : k = "X-Do-Not-Forward".data
  · subst h1; rfl
  · by_cases h2 : k = "Connection".data
    · subst h2; rfl
    · by_cases h3 : k = "Upgrade".data
      · subst h3; rfl
      · by_cases h4 : k = "Te".data
        · subst h4; rfl
        · simp [h1, h2, h3, h4, hdrLookup]

-- Concrete inputs for the header-forwarding scenario (claim C7).
def c7url : GoURL :=
  { Scheme := "http".data, Host := "up".data, Path := "/x".data, RawQuery := [] }

def c7cfg : BasketConfig :=
  { ForwardURL := "http://up/x".data, ProxyResponse := false, InsecureTLS := false
    ExpandPath := false, Capacity := 200 }

def c7req : RequestData :=
  { Date := 0
    Header := [("Content-Type".data, ["text/plain".data]),
               ("Connection".data, ["keep-alive".data])]
    ContentLength := 2, Body := "hi".data, Method := "POST".data
    Path := "/b1".data, Query := [] }

theorem forward_headers_exact_witness :
    hdrGet (buildForwardRequest c7url c7cfg "b1".data c7req).Header "Connection".data = []
    ∧ hdrGet (buildForwardRequest c7url c7cfg "b1".data c7req).Header
        "X-Do-Not-Forward".data = ["1".data]
    ∧ hdrGet (buildForwardRequest c7url c7cfg "b1".data c7req).Header
        "Content-Type".data = ["text/plain".data] := by
  have h := forward_headers_exact c7url c7cfg "b1".data c7req (by decide) (by decide)
  refine ⟨?_, ?_, ?_⟩
  · rw [h.2.2 "Connection".data (by decide)]; decide
  · rw [h.2.2 "X-Do-Not-Forward".data (by decide)]; decide
  · rw [h.2.2 "Content-Type".data (by decide)]; decide

/-- Structure `BasketInfo` of `baskets.go`. -/
structure BasketInfo where
  Name : Str
  RequestsCount : Int
  RequestsTotalCount : Int
  LastRequestDate : Int
deriving DecidableEq

/-- Structure `DatabaseStats` of `baskets.go`. -/
structure DatabaseStats where
  BasketsCount : Int
  EmptyBasketsCount : Int
  RequestsCount : Int
  RequestsTotalCount : Int
  MaxBasketSize : Int
  AvgBasketSize : Int
  TopBasketsBySize : List BasketInfo
  TopBasketsByDate : List BasketInfo
deriving DecidableEq

/-- Go's zero value of `DatabaseStats`: all counters 0, the two top lists nil
(rendered as `[]` in the list model). -/
def emptyStats : DatabaseStats :=
  { BasketsCount := 0, EmptyBasketsCount := 0, RequestsCount := 0
    RequestsTotalCount := 0, MaxBasketSize := 0, AvgBasketSize := 0
    TopBasketsBySize := [], TopBasketsByDate := [] }

/-- The comparator closure `b1.RequestsTotalCount > b2.RequestsTotalCount`
passed by `Collect` for the by-size top list. -/
def gtSize (b1 b2 : BasketInfo) : Bool :=
  decide (b1.RequestsTotalCount > b2.RequestsTotalCount)

/-- The comparator closure `b1.LastRequestDate > b2.LastRequestDate` passed by
`Collect` for the by-recency top list. -/
def gtDate (b1 b2 : BasketInfo) : Bool :=
  decide (b1.LastRequestDate > b2.LastRequestDate)

/-- The scan of `collectConditionally`'s for-loop: locate the first position
whose element the incoming basket beats and return the list with the basket
inserted there (before the tail drop); `none` when the loop finds no
position. -/
def scanIns (greater : BasketInfo → BasketInfo → Bool) (b : BasketInfo) :
    List BasketInfo → Option (List BasketInfo)
  | [] => none
  | e :: rest =>
    if greater b e then some (b :: e :: rest)
    else (scanIns greater b rest).map (e :: ·)

/-- Function `collectConditionally` of `baskets.go`.  A nil collection is seeded with
the basket outright (`make` + `append`).  Otherwise the basket is inserted at
the first position the comparator prefers: below capacity the list grows by
one (`append(col, nil)` then shift), at capacity the old tail is discarded by
the shift; a basket that wins no position is appended only below capacity.
The capacity test `len(col) < size` uses the length before insertion, as in
the source; a Go `max ≤ 0` behaves exactly like the `Nat` value 0 here, since
`len(col) < size` is then always false. -/
def collectConditionally (col : List BasketInfo) (basket : BasketInfo) (size : Nat)
    (greater : BasketInfo → BasketInfo → Bool) : List BasketInfo :=
  match col with
  | [] => [basket]
  | _ :: _ =>
    match scanIns greater basket col with
    | some grown => if col.length < size then grown else grown.dropLast
    | none => if col.length < size then col ++ [basket] else col

/-- Method `DatabaseStats.Collect` of `baskets.go`. -/
def DatabaseStats.Collect (stats : DatabaseStats) (basket : BasketInfo) (max : Nat) :
    DatabaseStats :=
  { BasketsCount := stats.BasketsCount + 1
    EmptyBasketsCount :=
      stats.EmptyBasketsCount + (if basket.RequestsTotalCount = 0 then 1 else 0)
    RequestsCount := stats.RequestsCount + basket.RequestsCount
    RequestsTotalCount := stats.RequestsTotalCount + basket.RequestsTotalCount
    MaxBasketSize :=
      if basket.RequestsTotalCount > stats.MaxBasketSize
      then basket.RequestsTotalCount else stats.MaxBasketSize
    AvgBasketSize := stats.AvgBasketSize
    TopBasketsBySize := collectConditionally stats.TopBasketsBySize basket max gtSize
    TopBasketsByDate := collectConditionally stats.TopBasketsByDate basket max gtDate }

/-- Go's `/` on `int` truncates toward zero, which is `Int.tdiv`. -/
def intDivGo (a b : Int) : Int := Int.tdiv a b

/-- Method `DatabaseStats.UpdateAvarage` of `baskets.go`. -/
def DatabaseStats.UpdateAvarage (stats : DatabaseStats) : DatabaseStats :=
  if stats.BasketsCount > stats.EmptyBasketsCount then
    { stats with AvgBasketSize := intDivGo stats.RequestsTotalCount (stats.BasketsCount - stats.EmptyBasketsCount) }
  else
    { stats with AvgBasketSize := 0 }

/-- A sequence of basket snapshots folded through `Collect` from the zero
statistics, as `GetStats` implementations do. -/
def foldStats (xs : List BasketInfo) (max : Nat) : DatabaseStats :=
  xs.foldl (fun s b => s.Collect b max) emptyStats

-- Concrete snapshots with requests_total_count [5, 0, 7] (claim C8).
def c8b1 : BasketInfo :=
  { Name := "b1".data, RequestsCount := 5, RequestsTotalCount := 5, LastRequestDate := 1 }

def c8b2 : BasketInfo :=
  { Name := "b2".data, RequestsCount := 0, RequestsTotalCount := 0, LastRequestDate := 0 }

def c8b3 : BasketInfo :=
  { Name := "b3".data, RequestsCount := 7, RequestsTotalCount := 7, LastRequestDate := 2 }

/-- C8: after `UpdateAvarage`, `avg_basket_size` equals `requests_total_count`
divided by `baskets_count - empty_baskets_count` using integer division that
truncates toward zero when that denominator is positive, and 0 otherwise; for
snapshots with `requests_total_count` `[5, 0, 7]` the average is
`12 / 2 = 6`. -/
theorem updateAvarage_correct :
    (∀ stats : DatabaseStats,
        stats.UpdateAvarage.AvgBasketSize =
          if 0 < stats.BasketsCount - stats.EmptyBasketsCount
          then intDivGo stats.RequestsTotalCount
            (stats.BasketsCount - stats.EmptyBasketsCount)
          else 0)
    ∧ ((foldStats [c8b1, c8b2, c8b3] 2).UpdateAvarage).AvgBasketSize = 6 := by
  constructor
  · intro stats
    unfold DatabaseStats.UpdateAvarage
    by_cases h : stats.BasketsCount > stats.EmptyBasketsCount
    · rw [if_pos h, if_pos (by omega)]
    · rw [if_neg h, if_neg (by omega)]
  · decide

/-- Stable descending insertion (specification side): the incoming element is
placed before the first element it strictly beats, hence after every earlier
element with an equal key. -/
def insertDesc (greater : BasketInfo → BasketInfo → Bool) (b : BasketInfo) :
    List BasketInfo → List BasketInfo
  | [] => [b]
  | e :: rest => if greater b e then b :: e :: rest else e :: insertDesc greater b rest

/-- Stable descending insertion sort, consuming the input left to right. -/
def isortDesc (greater : BasketInfo → BasketInfo → Bool) :
    List BasketInfo → List BasketInfo → List BasketInfo
  | acc, [] => acc
  | acc, x :: xs => isortDesc greater (insertDesc greater x acc) xs

/-- Stable descending sort of a snapshot sequence. -/
def sortDesc (greater : BasketInfo → BasketInfo → Bool) (xs : List BasketInfo) :
    List BasketInfo := isortDesc greater [] xs

theorem insertDesc_eq_scan (g : BasketInfo → BasketInfo → Bool) (b : BasketInfo)
    (col : List BasketInfo) :
    insertDesc g b col = (scanIns g b col).getD (col ++ [b]) := by
  induction col with
  | nil => rfl
  | cons e rest ih =>
    by_cases hg : g b e
    · simp [insertDesc, scanIns, hg]
    · cases hsr : scanIns g b rest <;> simp [insertDesc, scanIns, hg, hsr, ih]

theorem scanIns_length (g : BasketInfo → BasketInfo → Bool) (b : BasketInfo)
    (col : List BasketInfo) (l : List BasketInfo) (h : scanIns g b col = some l) :
    l.length = col.length + 1 := by
  induction col generalizing l with
  | nil => simp [scanIns] at h
  | cons e rest ih =>
    by_cases hg : g b e
    · simp only [scanIns, if_pos hg, Option.some_inj] at h
      simp [← h]
    · simp only [scanIns, if_neg hg, Option.map_eq_some'] at h
      obtain ⟨a, ha, rfl⟩ := h
      simp [ih a ha]

theorem collectConditionally_eq_take (g : BasketInfo → BasketInfo → Bool)
    (col : List BasketInfo) (b : BasketInfo) (K : Nat)
    (hlen : col.length ≤ K) (hK : 1 ≤ K) :
    collectConditionally col b K g = (insertDesc g b col).take K := by
  cases col with
  | nil =>
    cases K with
    | zero => omega
    | succ n => simp [collectConditionally, insertDesc]
  | cons e rest =>
    have hcc : collectConditionally (e :: rest) b K g =
        match scanIns g b (e :: rest) with
        | some grown => if (e :: rest).length < K then grown else grown.dropLast
        | none => if (e :: rest).length < K then (e :: rest) ++ [b] else (e :: rest) := rfl
    rw [hcc, insertDesc_eq_scan]
    cases hscan : scanIns g b (e :: rest) with
    | some grown =>
      have hlg := scanIns_length g b (e :: rest) grown hscan
      simp only [Option.getD_some]
      by_cases hfull : (e :: rest).length < K
      · rw [if_pos hfull, List.take_of_length_le (by omega)]
      · have hEq : (e :: rest).length = K := le_antisymm hlen (Nat.le_of_not_lt hfull)
        rw [if_neg hfull, List.dropLast_eq_take, hlg, hEq, Nat.add_sub_cancel]
    | none =>
      simp only [Option.getD_none]
      by_cases hfull : (e :: rest).length < K
      · rw [if_pos hfull, List.take_of_length_le (by simp at hfull ⊢; omega)]
      · have hEq : (e :: rest).length = K := le_antisymm hlen (Nat.le_of_not_lt hfull)
        rw [if_neg hfull, ← hEq, List.take_left]

theorem take_insertDesc_take (g : BasketInfo → BasketInfo → Bool) (b : BasketInfo)
    (s : List BasketInfo) (K : Nat) :
    (insertDesc g b (s.take K)).take K = (insertDesc g b s).take K := by
  induction s generalizing K with
  | nil => simp
  | cons e rest ih =>
    cases K with
    | zero => simp
    | succ n =>
      rw [List.take_succ_cons]
      by_cases hg : g b e
      · cases n with
        | zero => simp [insertDesc, hg]
        | succ m =>
          simp [insertDesc, hg, List.take_take, Nat.min_eq_left (Nat.le_succ m)]
      · simp [insertDesc, hg, List.take_succ_cons, ih]

theorem isortDesc_append (g : BasketInfo → BasketInfo → Bool)
    (acc xs : List BasketInfo) (x : BasketInfo) :
    isortDesc g acc (xs ++ [x]) = insertDesc g x (isortDesc g acc xs) := by
  induction xs generalizing acc with
  | nil => rfl
  | cons y ys ih => simpa [isortDesc] using ih (insertDesc g y acc)

theorem foldCC_take (g : BasketInfo → BasketInfo → Bool) (K : Nat) (hK : 1 ≤ K) :
    ∀ xs ys : List BasketInfo,
      xs.foldl (fun c b => collectConditionally c b K g) ((sortDesc g ys).take K) =
        (sortDesc g (ys ++ xs)).take K := by
  intro xs
  induction xs with
  | nil => intro ys; simp
  | cons x xs ih =>
    intro ys
    rw [List.foldl_cons,
      collectConditionally_eq_take g _ x K (by rw [List.length_take]; exact inf_le_left) hK,
      take_insertDesc_take]
    have hs : insertDesc g x (sortDesc g ys) = sortDesc g (ys ++ [x]) :=
      (isortDesc_append g [] ys x).symm
    rw [hs, ih (ys ++ [x])]
    congr 1
    simp

/-- The two top-K folds inside `Collect`, projected out of the statistics
fold. -/
theorem foldl_collect_size (xs : List BasketInfo) (K : Nat) (s : DatabaseStats) :
    (xs.foldl (fun st b => st.Collect b K) s).TopBasketsBySize =
      xs.foldl (fun c b => collectConditionally c b K gtSize) s.TopBasketsBySize := by
  induction xs generalizing s with
  | nil => rfl
  | cons x xs ih => rw [List.foldl_cons, List.foldl_cons, ih]; rfl

theorem foldl_collect_date (xs : List BasketInfo) (K : Nat) (s : DatabaseStats) :
    (xs.foldl (fun st b => st.Collect b K) s).TopBasketsByDate =
      xs.foldl (fun c b => collectConditionally c b K gtDate) s.TopBasketsByDate := by
  induction xs generalizing s with
  | nil => rfl
  | cons x xs ih => rw [List.foldl_cons, List.foldl_cons, ih]; rfl

theorem foldTop_eq_take (g : BasketInfo → BasketInfo → Bool) (K : Nat) (hK : 1 ≤ K)
    (xs : List BasketInfo) :
    xs.foldl (fun c b => collectConditionally c b K g) [] = (sortDesc g xs).take K := by
  have h := foldCC_take g K hK xs []
  simpa [sortDesc, isortDesc] using h

/-- The sort key of the by-size top list. -/
def keySize (b : BasketInfo) : Int := b.RequestsTotalCount

/-- The sort key of the by-recency top list. -/
def keyDate (b : BasketInfo) : Int := b.LastRequestDate

/-- A comparator that strictly prefers the larger key. -/
def gtKey (key : BasketInfo → Int) (b1 b2 : BasketInfo) : Bool :=
  decide (key b1 > key b2)

theorem gtSize_eq : gtSize = gtKey keySize := rfl

theorem gtDate_eq : gtDate = gtKey keyDate := rfl

theorem insertDesc_length (g : BasketInfo → BasketInfo → Bool) (b : BasketInfo)
    (l : List BasketInfo) : (insertDesc g b l).length = l.length + 1 := by
  induction l with
  | nil => rfl
  | cons e rest ih => by_cases hg : g b e <;> simp [insertDesc, hg, ih]

theorem insertDesc_mem (g : BasketInfo → BasketInfo → Bool) (b : BasketInfo)
    (l : List BasketInfo) (x : BasketInfo) :
    x ∈ insertDesc g b l ↔ x = b ∨ x ∈ l := by
  induction l with
  | nil => simp [insertDesc]
  | cons e rest ih =>
    by_cases hg : g b e
    · simp [insertDesc, hg, ih]
    · simp [insertDesc, hg, ih]
      tauto

theorem isortDesc_length (g : BasketInfo → BasketInfo → Bool)
    (xs acc : List BasketInfo) :
    (isortDesc g acc xs).length = acc.length + xs.length := by
  induction xs generalizing acc with
  | nil => simp [isortDesc]
  | cons x xs ih =>
    rw [show isortDesc g acc (x :: xs) = isortDesc g (insertDesc g x acc) xs from rfl,
      ih, insertDesc_length]
    simp [List.length_cons]
    omega

theorem isortDesc_mem (g : BasketInfo → BasketInfo → Bool)
    (xs acc : List BasketInfo) (y : BasketInfo) :
    y ∈ isortDesc g acc xs ↔ y ∈ acc ∨ y ∈ xs := by
  induction xs generalizing acc with
  | nil => simp [isortDesc]
  | cons x xs ih =>
    rw [show isortDesc g acc (x :: xs) = isortDesc g (insertDesc g x acc) xs from rfl, ih]
    simp [insertDesc_mem]
    tauto

theorem insertDesc_pairwise (key : BasketInfo → Int) (b : BasketInfo)
    (l : List BasketInfo) (hl : l.Pairwise (fun a c => key c ≤ key a)) :
    (insertDesc (gtKey key) b l).Pairwise (fun a c => key c ≤ key a) := by
  induction l with
  | nil => simp [insertDesc]
  | cons e rest ih =>
    rw [List.pairwise_cons] at hl
    obtain ⟨he, hrest⟩ := hl
    by_cases hg : gtKey key b e
    · have hlt : key e < key b := by simpa [gtKey] using hg
      simp only [insertDesc, if_pos hg]
      refine List.pairwise_cons.2 ⟨?_, List.pairwise_cons.2 ⟨he, hrest⟩⟩
      intro y hy
      rcases List.mem_cons.1 hy with rfl | hy
      · exact le_of_lt hlt
      · exact le_trans (he y hy) (le_of_lt hlt)
    · have hle : key b ≤ key e := by simpa [gtKey, not_lt] using hg
      simp only [insertDesc, if_neg hg]
      refine List.pairwise_cons.2 ⟨?_, ih hrest⟩
      intro y hy
      rcases (insertDesc_mem _ b rest y).1 hy with rfl | hy
      · exact hle
      · exact he y hy

theorem isortDesc_pairwise (key : BasketInfo → Int) (xs acc : List BasketInfo)
    (hacc : acc.Pairwise (fun a c => key c ≤ key a)) :
    (isortDesc (gtKey key) acc xs).Pairwise (fun a c => key c ≤ key a) := by
  induction xs generalizing acc with
  | nil => simpa [isortDesc] using hacc
  | cons x xs ih =>
    rw [show isortDesc (gtKey key) acc (x :: xs) =
        isortDesc (gtKey key) (insertDesc (gtKey key) x acc) xs from rfl]
    exact ih _ (insertDesc_pairwise key x acc hacc)

theorem filter_insertDesc_neg (g : BasketInfo → BasketInfo → Bool) (b : BasketInfo)
    (l : List BasketInfo) (p : BasketInfo → Bool) (hp : p b = false) :
    (insertDesc g b l).filter p = l.filter p := by
  induction l with
  | nil => simp [insertDesc, hp]
  | cons e rest ih =>
    by_cases hg : g b e <;> simp [insertDesc, hg, hp, ih, List.filter_cons]

theorem filter_insertDesc_pos (key : BasketInfo → Int) (b : BasketInfo)
    (l : List BasketInfo) (v : Int) (hb : key b = v)
    (hl : l.Pairwise (fun a c => key c ≤ key a)) :
    (insertDesc (gtKey key) b l).filter (fun x => decide (key x = v)) =
      l.filter (fun x => decide (key x = v)) ++ [b] := by
  induction l with
  | nil => simp [insertDesc, hb]
  | cons e rest ih =>
    rw [List.pairwise_cons] at hl
    obtain ⟨he, hrest⟩ := hl
    by_cases hg : gtKey key b e
    · have hlt : key e < key b := by simpa [gtKey] using hg
      have hpe : ¬ key e = v := by omega
      have hall : rest.filter (fun x => decide (key x = v)) = [] := by
        rw [List.filter_eq_nil_iff]
        intro a ha
        have hae := he a ha
        simp only [decide_eq_true_eq]
        omega
      simp [insertDesc, hg, List.filter_cons, hb, hpe, hall]
    · simp only [insertDesc, if_neg hg]
      by_cases hpe : key e = v <;>
        simp [List.filter_cons, hpe, ih hrest]

theorem filter_isortDesc (key : BasketInfo → Int) (xs acc : List BasketInfo) (v : Int)
    (hacc : acc.Pairwise (fun a c => key c ≤ key a)) :
    (isortDesc (gtKey key) acc xs).filter (fun x => decide (key x = v)) =
      acc.filter (fun x => decide (key x = v)) ++
        xs.filter (fun x => decide (key x = v)) := by
  induction xs generalizing acc with
  | nil => simp [isortDesc]
  | cons x xs ih =>
    rw [show isortDesc (gtKey key) acc (x :: xs) =
        isortDesc (gtKey key) (insertDesc (gtKey key) x acc) xs from rfl]
    rw [ih _ (insertDesc_pairwise key x acc hacc)]
    by_cases hx : key x = v
    · rw [filter_insertDesc_pos key x acc v hx hacc]
      simp [List.filter_cons, hx, List.append_assoc]
    · rw [filter_insertDesc_neg _ x acc _ (by simp [hx])]
      simp [List.filter_cons, hx]

theorem sortDesc_length (g : BasketInfo → BasketInfo → Bool) (xs : List BasketInfo) :
    (sortDesc g xs).length = xs.length := by
  simpa [sortDesc] using isortDesc_length g xs []

theorem sortDesc_mem (g : BasketInfo → BasketInfo → Bool) (xs : List BasketInfo)
    (y : BasketInfo) : y ∈ sortDesc g xs ↔ y ∈ xs := by
  simpa [sortDesc] using isortDesc_mem g xs [] y

theorem sortDesc_pairwise (key : BasketInfo → Int) (xs : List BasketInfo) :
    (sortDesc (gtKey key) xs).Pairwise (fun a c => key c ≤ key a) :=
  isortDesc_pairwise key xs [] List.Pairwise.nil

theorem filter_sortDesc (key : BasketInfo → Int) (xs : List BasketInfo) (v : Int) :
    (sortDesc (gtKey key) xs).filter (fun x => decide (key x = v)) =
      xs.filter (fun x => decide (key x = v)) := by
  simpa [sortDesc] using filter_isortDesc key xs [] v List.Pairwise.nil

theorem filter_take_pre (p : BasketInfo → Bool) (l : List BasketInfo) (K : Nat) :
    (l.take K).filter p <+: l.filter p :=
  ⟨(l.drop K).filter p, by rw [← List.filter_append, List.take_append_drop]⟩

theorem topProps (key : BasketInfo → Int) (xs : List BasketInfo) (K : Nat) (hK : 1 ≤ K)
    (top : List BasketInfo)
    (htop : top = xs.foldl (fun c b => collectConditionally c b K (gtKey key)) []) :
    top.length = min K xs.length
    ∧ (∀ x ∈ top, x ∈ xs)
    ∧ top.Pairwise (fun a c => key c ≤ key a)
    ∧ ∀ v : Int, top.filter (fun x => decide (key x = v)) <+:
        xs.filter (fun x => decide (key x = v)) := by
  have hchar : top = (sortDesc (gtKey key) xs).take K := by
    rw [htop, foldTop_eq_take _ K hK xs]
  refine ⟨?_, ?_, ?_, ?_⟩
  · rw [hchar, List.length_take, sortDesc_length]
  · intro x hx
    rw [hchar] at hx
    exact (sortDesc_mem _ xs x).1 (List.Sublist.mem hx (List.take_sublist K _))
  · rw [hchar]
    exact List.Pairwise.sublist (List.take_sublist K _) (sortDesc_pairwise key xs)
  · intro v
    rw [hchar]
    have h1 := filter_take_pre (fun x => decide (key x = v)) (sortDesc (gtKey key) xs) K
    rw [filter_sortDesc] at h1
    exact h1

/-- C3 (amended to bounds K ≥ 1): folding snapshots through `Collect` with
bound K yields a `top_baskets_size` list that is a subset of the input of size
min(K, n), ordered non-increasing by `requests_total_count`; snapshots of
equal count appear in first-seen order and the earlier-collected ones are
preferred for retention (for every count value, the retained snapshots with
that count form a prefix, in input order, of the input snapshots with that
count); the same holds for `top_baskets_recent` with `last_request_date` as
the key.  The restriction to K ≥ 1 is forced: at K = 0 a single snapshot
already yields a list of length 1 rather than min(0, 1) = 0, because the
nil-collection branch seeds the list before any capacity check (see the
counterexample below). -/
theorem collect_topK (xs : List BasketInfo) (K : Nat) (hK : 1 ≤ K) :
    ((foldStats xs K).TopBasketsBySize.length = min K xs.length
      ∧ (∀ x ∈ (foldStats xs K).TopBasketsBySize, x ∈ xs)
      ∧ (foldStats xs K).TopBasketsBySize.Pairwise
          (fun a c => c.RequestsTotalCount ≤ a.RequestsTotalCount)
      ∧ ∀ v : Int, (foldStats xs K).TopBasketsBySize.filter
            (fun x => decide (x.RequestsTotalCount = v)) <+:
          xs.filter (fun x => decide (x.RequestsTotalCount = v)))
    ∧ ((foldStats xs K).TopBasketsByDate.length = min K xs.length
      ∧ (∀ x ∈ (foldStats xs K).TopBasketsByDate, x ∈ xs)
      ∧ (foldStats xs K).TopBasketsByDate.Pairwise
          (fun a c => c.LastRequestDate ≤ a.LastRequestDate)
      ∧ ∀ v : Int, (foldStats xs K).TopBasketsByDate.filter
            (fun x => decide (x.LastRequestDate = v)) <+:
          xs.filter (fun x => decide (x.LastRequestDate = v))) := by
  have hs : (foldStats xs K).TopBasketsBySize =
      xs.foldl (fun c b => collectConditionally c b K (gtKey keySize)) [] := by
    rw [foldStats, foldl_collect_size, gtSize_eq]
    rfl
  have hd : (foldStats xs K).TopBasketsByDate =
      xs.foldl (fun c b => collectConditionally c b K (gtKey keyDate)) [] := by
    rw [foldStats, foldl_collect_date, gtDate_eq]
    rfl
  exact ⟨topProps keySize xs K hK _ hs, topProps keyDate xs K hK _ hd⟩

-- Concrete snapshots for claim C3.
def c3b : BasketInfo :=
  { Name := "b".data, RequestsCount := 1, RequestsTotalCount := 1, LastRequestDate := 1 }

/-- C3 counterexample: with bound K = 0 and a single snapshot, the by-size top
list has length 1, not min(0, 1) = 0 — `collectConditionally` seeds a nil
collection with the first snapshot regardless of the bound. -/
theorem collect_topK_zero_counterexample :
    (foldStats [c3b] 0).TopBasketsBySize.length ≠ min 0 [c3b].length := by decide

def c3b5 : BasketInfo :=
  { Name := "s5".data, RequestsCount := 5, RequestsTotalCount := 5, LastRequestDate := 10 }

def c3b0 : BasketInfo :=
  { Name := "s0".data, RequestsCount := 0, RequestsTotalCount := 0, LastRequestDate := 30 }

def c3b7 : BasketInfo :=
  { Name := "s7".data, RequestsCount := 7, RequestsTotalCount := 7, LastRequestDate := 20 }

theorem collect_topK_witness :
    1 ≤ 2 ∧ (foldStats [c3b5, c3b0, c3b7] 2).TopBasketsBySize.length = min 2 3 := by
  refine ⟨by decide, ?_⟩
  have h := (collect_topK [c3b5, c3b0, c3b7] 2 (by decide)).1.1
  simpa using h
